import Mathlib

/-!
Verification of the fuzzy schema/value reconciliation core of the
`onekeel_agent` repository (`src/legacy_code/data_loader.py`,
`src/legacy_code/data_cleaner.py`, `src/legacy_code/column_matcher (1).py`,
`src/legacy_code/schema_config.py`).

Strings are modelled as lists of Unicode codepoints (`Str := List Nat`),
so that Python's per-character regex substitutions, `str.lower()` and
`str.strip()` can be embedded as executable recursive functions.
Fuzzy-match scores (rapidfuzz returns floats in [0,100]) are modelled as
exact rationals.
-/

/-- A Python string, modelled as its list of Unicode codepoints. -/
abbrev Str := List Nat

/-- Helper turning a Lean string literal into its codepoint list. -/
def str (s : String) : Str := s.data.map Char.toNat

/-- Codepoint class `[A-Z]` (as in the regexes of `to_snake_case`). -/
def isUpperCp (c : Nat) : Bool := decide (65 ≤ c ∧ c ≤ 90)

/-- Codepoint class `[a-z]`. -/
def isLowerCp (c : Nat) : Bool := decide (97 ≤ c ∧ c ≤ 122)

/-- Codepoint class `[0-9]`. -/
def isDigitCp (c : Nat) : Bool := decide (48 ≤ c ∧ c ≤ 57)

/-- Codepoint class `[a-zA-Z0-9]`. -/
def isAlnumCp (c : Nat) : Bool := isUpperCp c || isLowerCp c || isDigitCp c

/-- Python `str.lower()` on one codepoint.  After step `s3` of
`to_snake_case` every remaining codepoint is ASCII alphanumeric or `_`,
so the ASCII case map is the relevant fragment of Unicode lowercasing. -/
def lowerCp (c : Nat) : Nat := if isUpperCp c then c + 32 else c

/-- True when the list starts with an `[a-z]` codepoint (the lookahead
needed by the regex `(.)([A-Z][a-z]+)`). -/
def headLower : Str → Bool
  | [] => false
  | c :: _ => isLowerCp c

/-- Recursion core of `sub1`, structurally recursive on a fuel bound so
that the kernel can evaluate it.  One unit of fuel is spent per scan
position; since every step consumes at least one input codepoint, any
fuel at least the length of the input is enough (`sub1F_fuel`). -/
def sub1F : Nat → Str → Str
  | _, [] => []
  | _, [c] => [c]
  | 0, l => l
  | f + 1, c :: d :: rest =>
    if (c != 10) && isUpperCp d && headLower rest then
      c :: 95 :: d :: (rest.takeWhile isLowerCp ++ sub1F f (rest.dropWhile isLowerCp))
    else
      c :: sub1F f (d :: rest)

/-- Embedding of `re.sub('(.)([A-Z][a-z]+)', r'\1_\2', s)`
(`data_cleaner.py`, `to_snake_case`, step `s1`): scan left to right for the
leftmost match (one arbitrary non-newline codepoint followed by `[A-Z]` and
a maximal nonempty run of `[a-z]`), insert `_` (codepoint 95) between the
two groups, and resume after the match (matches do not overlap and
replacements are not rescanned). -/
def sub1 (s : Str) : Str := sub1F s.length s

/-- Embedding of `re.sub('([a-z0-9])([A-Z])', r'\1_\2', s1)` (step `s2`):
insert `_` between a lowercase-or-digit codepoint and an uppercase one,
resuming after each two-codepoint match. -/
def sub2 : Str → Str
  | [] => []
  | [c] => [c]
  | c :: d :: rest =>
    if (isLowerCp c || isDigitCp c) && isUpperCp d then
      c :: 95 :: d :: sub2 rest
    else
      c :: sub2 (d :: rest)

/-- Embedding of `re.sub(r'[^a-zA-Z0-9]', '_', s2)` (step `s3`): a
single-codepoint character class, hence a pointwise map. -/
def sub3 (s : Str) : Str := s.map (fun c => if isAlnumCp c then c else 95)

/-- Embedding of `re.sub(r'_+', '_', s3)`: collapse each maximal run of
underscores to a single underscore. -/
def collapseUnd : Str → Str
  | [] => []
  | [c] => [c]
  | c :: d :: rest =>
    if c = 95 ∧ d = 95 then collapseUnd (d :: rest)
    else c :: collapseUnd (d :: rest)

/-- Embedding of `.lower()` on the result of step `s3` (see `lowerCp`). -/
def lowerStr (s : Str) : Str := s.map lowerCp

/-- Embedding of `.strip('_')`: drop leading and trailing underscores. -/
def stripUnd (s : Str) : Str :=
  ((s.dropWhile (fun c => c = 95)).reverse.dropWhile (fun c => c = 95)).reverse

/-- Embedding of `to_snake_case` (`data_cleaner.py` lines 44-49). -/
def to_snake_case (s : Str) : Str :=
  stripUnd (lowerStr (collapseUnd (sub3 (sub2 (sub1 s)))))

/-- Codepoints that can occur in the output of `to_snake_case`:
lowercase ASCII letters, ASCII digits, and the underscore. -/
def goodCp (c : Nat) : Bool := isLowerCp c || isDigitCp c || decide (c = 95)

/-- No two adjacent underscores (the invariant established by
`re.sub(r'_+', '_', ...)`). -/
def NoAdjUnd (l : Str) : Prop := l.Chain' (fun a b => ¬(a = 95 ∧ b = 95))

theorem goodCp_not_upper {c : Nat} (h : goodCp c = true) : isUpperCp c = false := by
  simp only [goodCp, isLowerCp, isDigitCp, isUpperCp, Bool.or_eq_true,
    decide_eq_true_eq, decide_eq_false_iff_not] at h ⊢
  omega

theorem lowerCp_good {a : Nat} (h : isAlnumCp a = true ∨ a = 95) :
    goodCp (lowerCp a) = true := by
  simp only [isAlnumCp, isUpperCp, isLowerCp, isDigitCp, Bool.or_eq_true,
    decide_eq_true_eq] at h
  simp only [lowerCp, isUpperCp, goodCp, isLowerCp, isDigitCp, decide_eq_true_eq]
  split <;> rename_i hsp <;>
    simp only [decide_eq_true_eq, Bool.or_eq_true, decide_eq_true_eq] at * <;> omega

theorem lowerCp_eq_95 {a : Nat} : lowerCp a = 95 ↔ a = 95 := by
  simp only [lowerCp, isUpperCp]
  split <;> rename_i hsp <;> simp only [decide_eq_true_eq] at hsp <;> omega

theorem lowerCp_of_good {c : Nat} (h : goodCp c = true) : lowerCp c = c := by
  simp only [lowerCp, goodCp_not_upper h, Bool.false_eq_true, if_false]

/-- If the input contains no uppercase codepoint, the regex
`(.)([A-Z][a-z]+)` has no match and `sub1` is the identity (for any fuel). -/
theorem sub1F_id (f : Nat) (l : Str) (h : ∀ c ∈ l, isUpperCp c = false) :
    sub1F f l = l := by
  induction f generalizing l with
  | zero => cases l with
    | nil => rfl
    | cons c t => cases t <;> rfl
  | succ f ih =>
    cases l with
    | nil => rfl
    | cons c t =>
      cases t with
      | nil => rfl
      | cons d rest =>
        have hd : isUpperCp d = false := h d (by simp)
        simp only [sub1F, hd, Bool.and_false, Bool.false_and, Bool.false_eq_true,
          if_false]
        exact congrArg (c :: ·) (ih (d :: rest) fun x hx => h x (by simp_all))

theorem sub1_id (l : Str) (h : ∀ c ∈ l, isUpperCp c = false) : sub1 l = l :=
  sub1F_id l.length l h

/-- If the input contains no uppercase codepoint, the regex
`([a-z0-9])([A-Z])` has no match and `sub2` is the identity. -/
theorem sub2_id (l : Str) (h : ∀ c ∈ l, isUpperCp c = false) : sub2 l = l := by
  induction l with
  | nil => rfl
  | cons c t ih =>
    cases t with
    | nil => rfl
    | cons d rest =>
      have hd : isUpperCp d = false := h d (by simp)
      simp only [sub2, hd, Bool.and_false, Bool.false_eq_true, if_false]
      exact congrArg (c :: ·) (ih fun x hx => h x (by simp_all))

theorem map_id_of {f : Nat → Nat} {l : Str} (h : ∀ c ∈ l, f c = c) :
    l.map f = l := by
  induction l with
  | nil => rfl
  | cons c t ih =>
    simp only [List.map_cons, h c (by simp)]
    exact congrArg (c :: ·) (ih fun x hx => h x (by simp_all))

theorem sub3_id (l : Str) (h : ∀ c ∈ l, goodCp c = true) : sub3 l = l := by
  refine map_id_of fun c hc => ?_
  have := h c hc
  simp only [goodCp, isAlnumCp, isLowerCp, isDigitCp, Bool.or_eq_true,
    decide_eq_true_eq] at this
  simp only [isAlnumCp, isUpperCp, isLowerCp, isDigitCp]
  split <;> rename_i hsp <;>
    simp only [Bool.or_eq_true, decide_eq_true_eq] at hsp <;> omega

theorem sub3_mem {c : Nat} {l : Str} (h : c ∈ sub3 l) :
    isAlnumCp c = true ∨ c = 95 := by
  simp only [sub3, List.mem_map] at h
  obtain ⟨a, _, rfl⟩ := h
  by_cases ha : isAlnumCp a = true <;> simp [ha]

theorem collapseUnd_subset {c : Nat} : ∀ {l : Str}, c ∈ collapseUnd l → c ∈ l := by
  intro l
  induction l with
  | nil => exact fun h => h
  | cons x t ih =>
    cases t with
    | nil => exact fun h => h
    | cons d rest =>
      intro h
      rw [collapseUnd] at h
      split at h
      · exact List.mem_cons_of_mem x (ih h)
      · rcases List.mem_cons.mp h with rfl | h
        · exact List.mem_cons_self _ _
        · exact List.mem_cons_of_mem x (ih h)

theorem collapseUnd_cons (l : Str) (c : Nat) :
    ∃ t, collapseUnd (c :: l) = c :: t := by
  induction l generalizing c with
  | nil => exact ⟨[], rfl⟩
  | cons d rest ih =>
    rw [collapseUnd]
    split
    · rename_i hcd
      obtain ⟨t, ht⟩ := ih d
      exact ⟨t, by rw [ht, hcd.1, hcd.2]⟩
    · exact ⟨collapseUnd (d :: rest), rfl⟩

theorem collapseUnd_noAdj : ∀ (l : Str), NoAdjUnd (collapseUnd l) := by
  intro l
  induction l with
  | nil => exact List.chain'_nil
  | cons c t ih =>
    cases t with
    | nil => exact List.chain'_singleton c
    | cons d rest =>
      rw [collapseUnd]
      split
      · exact ih
      · rename_i hcd
        obtain ⟨t2, ht2⟩ := collapseUnd_cons rest d
        rw [ht2]
        rw [ht2] at ih
        exact List.chain'_cons.mpr ⟨hcd, ih⟩

theorem lowerStr_noAdj {l : Str} (h : NoAdjUnd l) : NoAdjUnd (lowerStr l) := by
  unfold lowerStr NoAdjUnd
  rw [List.chain'_map]
  exact h.imp fun a b hab h2 =>
    hab ⟨lowerCp_eq_95.mp h2.1, lowerCp_eq_95.mp h2.2⟩

theorem lowerStr_good {c : Nat} {l : Str}
    (hl : ∀ a ∈ l, isAlnumCp a = true ∨ a = 95) (h : c ∈ lowerStr l) :
    goodCp c = true := by
  simp only [lowerStr, List.mem_map] at h
  obtain ⟨a, ha, rfl⟩ := h
  exact lowerCp_good (hl a ha)

theorem lowerStr_id (l : Str) (h : ∀ c ∈ l, goodCp c = true) : lowerStr l = l :=
  map_id_of fun c hc => lowerCp_of_good (h c hc)

theorem head?_dropWhile_false {p : Nat → Bool} {l : Str} {c : Nat}
    (h : (l.dropWhile p).head? = some c) : p c = false := by
  have := List.head?_dropWhile_not p l
  rw [h] at this
  exact this

theorem stripUnd_subset {c : Nat} {l : Str} (h : c ∈ stripUnd l) : c ∈ l := by
  unfold stripUnd at h
  rw [List.mem_reverse] at h
  have h2 := (List.dropWhile_sublist (fun c => decide (c = 95))).subset h
  rw [List.mem_reverse] at h2
  exact (List.dropWhile_sublist (fun c => decide (c = 95))).subset h2

theorem stripUnd_noAdj {l : Str} (h : NoAdjUnd l) : NoAdjUnd (stripUnd l) := by
  unfold stripUnd
  have symm : ∀ {m : Str}, NoAdjUnd m → NoAdjUnd m.reverse := by
    intro m hm
    unfold NoAdjUnd
    rw [List.chain'_reverse]
    exact hm.imp fun a b hab h2 => hab ⟨h2.2, h2.1⟩
  exact symm ((symm (h.suffix (List.dropWhile_suffix _))).suffix
    (List.dropWhile_suffix _))

theorem stripUnd_last {l : Str} {c : Nat} (h : (stripUnd l).getLast? = some c) :
    c ≠ 95 := by
  unfold stripUnd at h
  rw [List.getLast?_reverse] at h
  have := head?_dropWhile_false h
  simpa using this

theorem stripUnd_head {l : Str} {c : Nat} (h : (stripUnd l).head? = some c) :
    c ≠ 95 := by
  unfold stripUnd at h
  rw [List.head?_reverse] at h
  set X := (l.dropWhile (fun c => decide (c = 95))).reverse.dropWhile
    (fun c => decide (c = 95)) with hX
  cases hcX : X with
  | nil => rw [hcX] at h; simp at h
  | cons x xs =>
    obtain ⟨z, hz⟩ := List.dropWhile_suffix (l := (l.dropWhile
      (fun c => decide (c = 95))).reverse) (fun c => decide (c = 95))
    rw [← hX, hcX] at hz
    rw [hcX] at h
    have h3 : ((l.dropWhile (fun c => decide (c = 95))).reverse).getLast? =
        some c := by
      rw [← hz, List.getLast?_append_of_ne_nil z (by simp)]
      exact h
    rw [List.getLast?_reverse] at h3
    have := head?_dropWhile_false h3
    simpa using this

theorem dropWhile_id {p : Nat → Bool} {l : Str}
    (h : ∀ c, l.head? = some c → p c = false) : l.dropWhile p = l := by
  cases l with
  | nil => rfl
  | cons c t => rw [List.dropWhile_cons, h c rfl]; simp

theorem stripUnd_id (l : Str) (h1 : ∀ c, l.head? = some c → c ≠ 95)
    (h2 : ∀ c, l.getLast? = some c → c ≠ 95) : stripUnd l = l := by
  unfold stripUnd
  have e1 : l.dropWhile (fun c => decide (c = 95)) = l :=
    dropWhile_id (fun c hc => by simpa using h1 c hc)
  have e2 : l.reverse.dropWhile (fun c => decide (c = 95)) = l.reverse :=
    dropWhile_id (fun c hc => by
      rw [List.head?_reverse] at hc
      simpa using h2 c hc)
  rw [e1, e2, List.reverse_reverse]

theorem collapseUnd_id : ∀ (l : Str), NoAdjUnd l → collapseUnd l = l := by
  intro l
  induction l with
  | nil => exact fun _ => rfl
  | cons c t ih =>
    cases t with
    | nil => exact fun _ => rfl
    | cons d rest =>
      intro h
      obtain ⟨hcd, htail⟩ := List.chain'_cons.mp h
      rw [collapseUnd, if_neg hcd]
      exact congrArg (c :: ·) (ih htail)

theorem to_snake_case_good (s : Str) :
    ∀ c ∈ to_snake_case s, goodCp c = true := by
  intro c hc
  unfold to_snake_case at hc
  have hc2 := stripUnd_subset hc
  refine lowerStr_good (fun a ha => sub3_mem (collapseUnd_subset ha)) hc2

theorem to_snake_case_noAdj (s : Str) : NoAdjUnd (to_snake_case s) :=
  stripUnd_noAdj (lowerStr_noAdj (collapseUnd_noAdj _))

theorem to_snake_case_head (s : Str) :
    ∀ c, (to_snake_case s).head? = some c → c ≠ 95 := fun _ h => stripUnd_head h

theorem to_snake_case_last (s : Str) :
    ∀ c, (to_snake_case s).getLast? = some c → c ≠ 95 := fun _ h => stripUnd_last h

/-- C6: the Basic Cleaner's header normalization `to_snake_case`
(`data_cleaner.py` lines 44-49) is idempotent: applying it twice yields the
same result as applying it once, for every input string. -/
theorem to_snake_case_idempotent (s : Str) :
    to_snake_case (to_snake_case s) = to_snake_case s := by
  set t := to_snake_case s with ht
  have hGood : ∀ c ∈ t, goodCp c = true := to_snake_case_good s
  have hUp : ∀ c ∈ t, isUpperCp c = false := fun c hc => goodCp_not_upper (hGood c hc)
  show stripUnd (lowerStr (collapseUnd (sub3 (sub2 (sub1 t))))) = t
  rw [sub1_id t hUp, sub2_id t hUp, sub3_id t hGood,
    collapseUnd_id t (to_snake_case_noAdj s), lowerStr_id t hGood]
  exact stripUnd_id t (to_snake_case_head s) (to_snake_case_last s)

/-!
Canonical Vocabulary Registry.  Both `data_loader.py` (lines 50-56) and
`data_cleaner.py` (lines 67-73) build `alias_to_canonical` as a Python
dict by plain assignment.  A Python dict is modelled as an association
list with insertion-order semantics: assigning to an existing key updates
its value in place (keeping its position), assigning a fresh key appends.
-/

/-- A canonical-vocabulary entry, as in `schema_config.py`
(`EXPECTED_COLUMNS` / `LEAD_SOURCES`): a canonical name and its aliases. -/
structure CanonEntry where
  name : Str
  aliases : List Str
deriving DecidableEq

/-- Python dict read `m[k]`, as an option (`none` would be a `KeyError`). -/
def dget : List (Str × Str) → Str → Option Str
  | [], _ => none
  | p :: t, k => if p.1 = k then some p.2 else dget t k

/-- Python dict assignment `m[k] = v`: update in place if the key exists
(keeping its position in the insertion order), else append. -/
def insertD (m : List (Str × Str)) (k v : Str) : List (Str × Str) :=
  if (dget m k).isSome then m.map (fun p => if p.1 = k then (k, v) else p)
  else m ++ [(k, v)]

/-- Python `list(m.keys())`. -/
def keysD (m : List (Str × Str)) : List Str := m.map Prod.fst

/-- The dict writes performed for one entry of the configuration:
`for alias in col["aliases"]: alias_to_canonical[alias] = col["name"]`
followed by `alias_to_canonical[col["name"]] = col["name"]`. -/
def entryInserts (m : List (Str × Str)) (e : CanonEntry) : List (Str × Str) :=
  insertD (e.aliases.foldl (fun m2 a => insertD m2 a e.name) m) e.name e.name

/-- Embedding of the `alias_to_canonical` build loop (`data_loader.py`
lines 51-56 and, identically, `data_cleaner.py` lines 68-72). -/
def buildAliasMap (cfg : List CanonEntry) : List (Str × Str) :=
  cfg.foldl entryInserts []

/-- Whether an entry claims a string (as one of its aliases or as its own
canonical name). -/
def claims (e : CanonEntry) (a : Str) : Bool := a ∈ e.aliases || a = e.name

theorem dget_map_update (t : List (Str × Str)) (k v k' : Str) :
    dget (t.map (fun p => if p.1 = k then (k, v) else p)) k' =
      if k' = k then (if (dget t k).isSome then some v else none)
      else dget t k' := by
  induction t with
  | nil => by_cases hk' : k' = k <;> simp [dget, hk']
  | cons p t ih =>
    simp only [List.map_cons, dget]
    by_cases hpk : p.1 = k
    · simp only [if_pos hpk, dget]
      by_cases hk' : k' = k
      · simp [hk', hpk]
      · have hkk' : ¬(k = k') := fun hh => hk' hh.symm
        have hpk' : ¬(p.1 = k') := fun hh => hkk' (hpk.symm.trans hh)
        simp [hkk', hk', ih, hpk']
    · simp only [if_neg hpk, dget, ih]
      by_cases hk'p : p.1 = k'
      · have hk' : ¬(k' = k) := fun hh => hpk (hk'p.symm ▸ hh ▸ rfl)
        simp [hk'p, hk']
      · simp [hk'p, hpk]

theorem dget_append_single (t : List (Str × Str)) (k v k' : Str) :
    dget (t ++ [(k, v)]) k' =
      if (dget t k').isSome then dget t k'
      else if k = k' then some v else none := by
  induction t with
  | nil => by_cases hk : k = k' <;> simp [dget, hk]
  | cons p t ih =>
    simp only [List.cons_append, dget]
    by_cases hpk' : p.1 = k'
    · simp [hpk']
    · simp [hpk', ih]

theorem dget_insertD (m : List (Str × Str)) (k v k' : Str) :
    dget (insertD m k v) k' = if k' = k then some v else dget m k' := by
  unfold insertD
  split
  · rename_i hs
    rw [dget_map_update]
    by_cases hk' : k' = k
    · simp [hk', hs, hk' ▸ hs]
    · simp [hk']
  · rename_i hs
    rw [dget_append_single]
    by_cases hk' : k' = k
    · subst hk'
      simp only [Bool.not_eq_true] at hs
      simp [hs]
    · have : ¬(k = k') := fun hh => hk' hh.symm
      by_cases hsk' : (dget m k').isSome <;> simp_all

/-- The name of the last configuration entry (in list order) that claims a
given string, if any.  This is the reference description of what the
dict-overwrite build loop actually computes. -/
def lastClaim : List CanonEntry → Str → Option Str
  | [], _ => none
  | e :: t, a =>
    match lastClaim t a with
    | some n => some n
    | none => if claims e a then some e.name else none

theorem dget_alias_foldl (as : List Str) (nm : Str) (m : List (Str × Str))
    (a : Str) :
    dget (as.foldl (fun m2 x => insertD m2 x nm) m) a =
      if a ∈ as then some nm else dget m a := by
  induction as generalizing m with
  | nil => simp
  | cons x t ih =>
    simp only [List.foldl_cons, ih, dget_insertD]
    by_cases hx : a = x
    · simp [hx]
    · by_cases ht : a ∈ t <;> simp [hx, ht]

theorem dget_entryInserts (m : List (Str × Str)) (e : CanonEntry) (a : Str) :
    dget (entryInserts m e) a = if claims e a then some e.name else dget m a := by
  unfold entryInserts claims
  rw [dget_insertD, dget_alias_foldl]
  by_cases hn : a = e.name
  · by_cases ha : a ∈ e.aliases <;> simp [hn, ha]
  · by_cases ha : a ∈ e.aliases <;> simp [hn, ha]

theorem dget_foldl_entries (cfg : List CanonEntry) (m : List (Str × Str))
    (a : Str) :
    dget (cfg.foldl entryInserts m) a =
      match lastClaim cfg a with
      | some n => some n
      | none => dget m a := by
  induction cfg generalizing m with
  | nil => simp [lastClaim]
  | cons e t ih =>
    simp only [List.foldl_cons, ih, lastClaim, dget_entryInserts]
    cases lastClaim t a with
    | some n => simp
    | none =>
      by_cases hc : claims e a = true <;> simp [hc]

/-- C2 (amended): the registry build never fails; for every configuration
and every string, the alias lookup built by the dict-overwrite loop
resolves the string to the canonical name of the LAST configuration entry
claiming it (last-write-wins), and to nothing if no entry claims it.
In particular an alias claimed by two canonical names is silently resolved
to the later claimant, with no configuration error. -/
theorem buildAliasMap_last_write_wins (cfg : List CanonEntry) (a : Str) :
    dget (buildAliasMap cfg) a = lastClaim cfg a := by
  unfold buildAliasMap
  rw [dget_foldl_entries]
  cases lastClaim cfg a <;> simp [dget]

/-- C2 (counterexample): a configuration in which canonical names `A` and
`B` both claim the alias `x` builds without any error, and the resulting
lookup silently resolves `x` to `B` (the last claimant) — contradicting
the claim that such a configuration is rejected at build time. -/
theorem buildAliasMap_ambiguous_silently_resolved :
    dget (buildAliasMap
      [⟨str ("A"), [str ("x")]⟩, ⟨str ("B"), [str ("x")]⟩])
      (str ("x")) = some (str ("B")) := by decide

/-!
Fuzzy String Scorer.  `column_matcher (1).py` wraps the third-party
`rapidfuzz` library (`fuzz.token_sort_ratio`, `fuzz.WRatio`,
`process.extractOne`), which is not part of this repository; the scorers
are therefore modelled from the spec (section 4.1).  Scores are exact
rationals in [0,100].
-/

/-- Longest-common-subsequence length, the core of the edit-distance
(indel) based similarity; structurally recursive on a fuel bound so the
kernel can evaluate it (`a.length + b.length` fuel always suffices). -/
def lcsF : Nat → Str → Str → Nat
  | 0, _, _ => 0
  | _ + 1, [], _ => 0
  | _ + 1, _, [] => 0
  | f + 1, a :: as, b :: bs =>
    if a = b then lcsF f as bs + 1
    else max (lcsF f as (b :: bs)) (lcsF f (a :: as) bs)

/-- Longest common subsequence of two codepoint strings. -/
def lcs (a b : Str) : Nat := lcsF (a.length + b.length) a b

/-- Modelled from the spec (section 4.1): the edit-distance-based
similarity in [0,100] of two strings (rapidfuzz `fuzz.ratio`, i.e.
normalized indel similarity: `200 * lcs / (total length)`, with two empty
strings scoring 100). -/
def ratio (a b : Str) : ℚ :=
  if a.length + b.length = 0 then 100
  else 200 * (lcs a b : ℚ) / ((a.length : ℚ) + (b.length : ℚ))

/-- Whitespace codepoints for Python's `str.split()`. -/
def isSpaceCp (c : Nat) : Bool :=
  decide (c = 32 ∨ c = 9 ∨ c = 10 ∨ c = 13 ∨ c = 11 ∨ c = 12)

/-- Recursion core of `splitTokens` on a fuel bound. -/
def splitTokensF : Nat → Str → List Str
  | 0, _ => []
  | _ + 1, [] => []
  | f + 1, c :: rest =>
    if isSpaceCp c then splitTokensF f rest
    else (c :: rest.takeWhile (fun x => !isSpaceCp x)) ::
      splitTokensF f (rest.dropWhile (fun x => !isSpaceCp x))

/-- Modelled from the spec (section 4.1): split a string into word tokens
(Python `str.split()`: maximal runs of non-whitespace). -/
def splitTokens (s : Str) : List Str := splitTokensF s.length s

/-- Lexicographic comparison of codepoint strings (Python `sorted` order
on strings). -/
def lexLe : Str → Str → Bool
  | [], _ => true
  | _ :: _, [] => false
  | a :: as, b :: bs =>
    if a < b then true else if b < a then false else lexLe as bs

/-- Insert into a lexicographically sorted list of tokens. -/
def insertSorted (x : Str) : List Str → List Str
  | [] => [x]
  | y :: t => if lexLe x y then x :: y :: t else y :: insertSorted x t

/-- Modelled from the spec (section 4.1): sort the word tokens. -/
def sortTokens (l : List Str) : List Str := l.foldr insertSorted []

/-- Rejoin tokens with single spaces. -/
def joinTokens (l : List Str) : Str := List.intercalate [32] l

/-- Split into word tokens, sort them, rejoin with spaces. -/
def sortJoin (s : Str) : Str := joinTokens (sortTokens (splitTokens s))

/-- Modelled from the spec (section 4.1): the token-order-insensitive
ratio (rapidfuzz `fuzz.token_sort_ratio`): sort the word tokens of both
strings, rejoin, and compare with the edit-distance-based `ratio`. -/
def token_sort_ratio (a b : Str) : ℚ := ratio (sortJoin a) (sortJoin b)

/-- Embedding of `token_ratio` (`column_matcher (1).py` lines 6-11): the
wrapper the repository defines around `fuzz.token_sort_ratio`. -/
def token_ratio (a b : Str) : ℚ := token_sort_ratio a b

/-- All contiguous substrings of length `n` of `l`. -/
def windows (n : Nat) (l : Str) : List Str :=
  (List.range (l.length - n + 1)).map (fun i => (l.drop i).take n)

/-- Modelled from the spec (section 4.1): the partial-substring
sub-comparison of the weighted ratio — the best `ratio` of the shorter
string against the equal-length contiguous substrings of the longer. -/
def partialRatioSpec (a b : Str) : ℚ :=
  if a.length ≤ b.length then ((windows a.length b).map (ratio a)).foldr max 0
  else ((windows b.length a).map (ratio b)).foldr max 0

/-- Modelled from the spec (section 4.1): the weighted ratio, "a composite
score that favors the best of several sub-comparisons (full string,
partial substring, token-sort)".  This is the spec's description of
rapidfuzz `fuzz.WRatio`, wrapped by `column_matcher (1).py` lines 14-19. -/
def WRatio (a b : Str) : ℚ :=
  max (ratio a b) (max (partialRatioSpec a b) (token_sort_ratio a b))

/-- Modelled from the spec (section 4.1): `process.extractOne` returns the
single best-scoring candidate and its score, ties broken in favor of the
first candidate encountered at the maximum score, and no result at all
for an empty candidate list. -/
def extractOne (scorer : Str → Str → ℚ) (query : Str) : List Str → Option (Str × ℚ)
  | [] => none
  | c :: cs =>
    match extractOne scorer query cs with
    | none => some (c, scorer query c)
    | some (b, sb) =>
      if sb > scorer query c then some (b, sb) else some (c, scorer query c)

/-- Embedding of `best_match_score` (`column_matcher (1).py` lines 22-28):
`match, score, _ = process.extractOne(query, choices, scorer=scorer)`.
When `extractOne` yields no candidate the tuple unpacking raises, modelled
as `none`; in Python the default scorer is `fuzz.WRatio`, but every caller
in the repository passes `scorer=token_ratio` explicitly. -/
def best_match_score (query : Str) (choices : List Str)
    (scorer : Str → Str → ℚ) : Option (Str × ℚ) :=
  extractOne scorer query choices

theorem extractOne_mem {scorer : Str → Str → ℚ} {query : Str} :
    ∀ {choices : List Str} {m : Str} {s : ℚ},
      extractOne scorer query choices = some (m, s) → m ∈ choices := by
  intro choices
  induction choices with
  | nil => intro m s h; simp [extractOne] at h
  | cons c cs ih =>
    intro m s h
    rw [extractOne] at h
    cases he : extractOne scorer query cs with
    | none => rw [he] at h; simp at h; simp [h.1]
    | some p =>
      rw [he] at h
      obtain ⟨b, sb⟩ := p
      simp only at h
      split at h
      · simp at h
        exact List.mem_cons_of_mem c (ih (h.1 ▸ h.2 ▸ he))
      · simp at h
        simp [h.1]

theorem extractOne_isSome (scorer : Str → Str → ℚ) (query : Str)
    {choices : List Str} (h : choices ≠ []) :
    (extractOne scorer query choices).isSome = true := by
  cases choices with
  | nil => exact absurd rfl h
  | cons c cs =>
    rw [extractOne]
    cases extractOne scorer query cs with
    | none => rfl
    | some p => obtain ⟨b, sb⟩ := p; simp only; split <;> rfl

/-- C8: `best_match_score` returns a (match, score) pair exactly when the
candidate list is nonempty; for an empty candidate list `extractOne`
yields no candidate and the tuple unpacking fails (modelled by `none`),
so the function's contract holds only under the precondition that
`choices` is nonempty. -/
theorem best_match_score_empty_contract (scorer : Str → Str → ℚ)
    (query : Str) (choices : List Str) :
    best_match_score query choices scorer = none ↔ choices = [] := by
  constructor
  · intro h
    cases hc : choices with
    | nil => rfl
    | cons c cs =>
      have hne : choices ≠ [] := by simp [hc]
      have := extractOne_isSome scorer query hne
      rw [best_match_score] at h
      rw [h] at this
      simp at this
  · intro h
    simp [h, best_match_score, extractOne]

/-!
Column Reconciler (`data_loader.py`, `load_csv_file`, lines 49-83): the
fuzzy column-mapping loop, run against the `EXPECTED_COLUMNS` registry of
`schema_config.py` with `scorer=token_ratio`.
-/

/-- Embedding of `EXPECTED_COLUMNS` (`schema_config.py` lines 1-6). -/
def EXPECTED_COLUMNS : List CanonEntry :=
  [⟨str ("SoldDate"),
    [str ("sale_date"), str ("date_sold"), str ("sold_on"), str ("dateofsale")]⟩,
   ⟨str ("CustomerName"),
    [str ("customer"), str ("client_name"), str ("buyer_name"), str ("purchaser")]⟩,
   ⟨str ("SellingPrice"),
    [str ("price"), str ("amount_sold"), str ("sale_price"), str ("final_price")]⟩]

/-- The `alias_to_canonical` dict built by `load_csv_file` lines 50-56. -/
def expectedAliasMap : List (Str × Str) := buildAliasMap EXPECTED_COLUMNS

/-- One `mapping_meta` record of `load_csv_file` (lines 67-71 and 76-80). -/
structure ColumnMapping where
  original_column : Str
  mapped_to : Str
  score : ℚ
deriving DecidableEq

/-- The body of the mapping loop of `load_csv_file` (lines 60-82) for one
input column: score the column name against all candidate keys, map it to
the owning canonical name when the best score is at least 85, and keep it
unchanged otherwise.  `none` models the exceptions Python would raise
(unpacking `extractOne`'s `None` on an empty candidate list, or a
`KeyError` on the dict read). -/
def mapColumn (scorer : Str → Str → ℚ) (am : List (Str × Str))
    (user_col : Str) : Option ColumnMapping :=
  match best_match_score user_col (keysD am) scorer with
  | none => none
  | some (m, s) =>
    if 85 ≤ s then
      match dget am m with
      | some canonical => some ⟨user_col, canonical, s⟩
      | none => none
    else some ⟨user_col, user_col, s⟩

/-- The full mapping loop (`for user_col in df_sample.columns`), producing
the `mapping_meta` list in input-column order. -/
def reconcileMeta (scorer : Str → Str → ℚ) (am : List (Str × Str)) :
    List Str → Option (List ColumnMapping)
  | [] => some []
  | c :: cs =>
    match mapColumn scorer am c, reconcileMeta scorer am cs with
    | some r, some l => some (r :: l)
    | _, _ => none

/-- Column reconciliation exactly as `load_csv_file` runs it: against the
`EXPECTED_COLUMNS` alias universe, with `scorer=token_ratio` (line 63). -/
def reconcile_columns (cols : List Str) : Option (List ColumnMapping) :=
  reconcileMeta token_ratio expectedAliasMap cols

theorem keys_mem_dget {am : List (Str × Str)} {k : Str} (h : k ∈ keysD am) :
    ∃ v, dget am k = some v := by
  induction am with
  | nil => simp [keysD] at h
  | cons p t ih =>
    simp only [keysD, List.map_cons, List.mem_cons] at h
    by_cases hpk : p.1 = k
    · exact ⟨p.2, by simp [dget, hpk]⟩
    · rcases h with h | h
      · exact absurd h.symm hpk
      · obtain ⟨v, hv⟩ := ih h
        exact ⟨v, by simp [dget, hpk, hv]⟩

theorem mapColumn_spec (scorer : Str → Str → ℚ) (am : List (Str × Str))
    (h : keysD am ≠ []) (col : Str) :
    ∃ r, mapColumn scorer am col = some r ∧
      ∃ m s, best_match_score col (keysD am) scorer = some (m, s) ∧
        r.original_column = col ∧ r.score = s ∧
        ((85 ≤ s ∧ dget am m = some r.mapped_to) ∨
         (s < 85 ∧ r.mapped_to = col)) := by
  have hbm := extractOne_isSome scorer col h
  rw [Option.isSome_iff_exists] at hbm
  obtain ⟨⟨m, s⟩, hms⟩ := hbm
  have hbest : best_match_score col (keysD am) scorer = some (m, s) := hms
  by_cases hs : 85 ≤ s
  · obtain ⟨v, hv⟩ := keys_mem_dget (extractOne_mem hms)
    refine ⟨⟨col, v, s⟩, ?_, m, s, hbest, rfl, rfl, Or.inl ⟨hs, hv⟩⟩
    simp [mapColumn, hbest, hs, hv]
  · refine ⟨⟨col, col, s⟩, ?_, m, s, hbest, rfl, rfl, Or.inr ⟨not_le.mp hs, rfl⟩⟩
    simp [mapColumn, hbest, hs]

theorem reconcileMeta_spec (scorer : Str → Str → ℚ) (am : List (Str × Str))
    (h : keysD am ≠ []) (cols : List Str) :
    ∃ l, reconcileMeta scorer am cols = some l ∧
      List.Forall₂ (fun col r =>
        ∃ m s, best_match_score col (keysD am) scorer = some (m, s) ∧
          r.original_column = col ∧ r.score = s ∧
          ((85 ≤ s ∧ dget am m = some r.mapped_to) ∨
           (s < 85 ∧ r.mapped_to = col))) cols l := by
  induction cols with
  | nil => exact ⟨[], rfl, List.Forall₂.nil⟩
  | cons c cs ih =>
    obtain ⟨l, hl, hfa⟩ := ih
    obtain ⟨r, hr, hrP⟩ := mapColumn_spec scorer am h c
    refine ⟨r :: l, ?_, List.Forall₂.cons hrP hfa⟩
    simp [reconcileMeta, hr, hl]

theorem expected_keys_ne_nil : keysD expectedAliasMap ≠ [] := by decide

/-- A one-entry registry used to separate the two scoring modes. -/
def cfgC1 : List CanonEntry := [⟨str ("xy ab zw"), []⟩]

set_option maxRecDepth 20000 in
/-- C1 (counterexample): the mapping loop of `load_csv_file` passes
`scorer=token_ratio` (line 63), not the weighted ratio.  For the input
column `"ab"` against a registry whose only candidate is `"xy ab zw"`,
the token-sort score is 40 (below the 85 threshold, so the column passes
through), while the weighted ratio — whose partial-substring
sub-comparison finds `"ab"` inside `"xy ab zw"` — scores 100 and would
map the column.  Hence reconciliation with `token_ratio` and
reconciliation with `WRatio` disagree, refuting the claim that the
weighted-ratio mode is used. -/
theorem reconcile_not_WRatio_counterexample :
    reconcileMeta token_ratio (buildAliasMap cfgC1) [str ("ab")] ≠
      reconcileMeta WRatio (buildAliasMap cfgC1) [str ("ab")] := by
  with_unfolding_all decide

/-- C1 (amended): column reconciliation scores each input column name
against the full alias universe using the token-sort ratio (the
`token_ratio` wrapper around `fuzz.token_sort_ratio`), with acceptance
threshold 85: for every input column name the best match is computed with
the token-sort scorer, and the column is mapped to the owning canonical
name exactly when that score is at least 85 (otherwise it keeps its
original name). -/
theorem reconcile_columns_token_ratio_85 (cols : List Str) :
    ∃ l, reconcile_columns cols = some l ∧
      List.Forall₂ (fun col r =>
        ∃ m s, best_match_score col (keysD expectedAliasMap) token_ratio =
            some (m, s) ∧
          r.original_column = col ∧ r.score = s ∧
          ((85 ≤ s ∧ dget expectedAliasMap m = some r.mapped_to) ∨
           (s < 85 ∧ r.mapped_to = col))) cols l :=
  reconcileMeta_spec token_ratio expectedAliasMap expected_keys_ne_nil cols

/-- C3: for every list of input column names, reconciliation produces
exactly one `ColumnMapping` record per input column, in input order
(expressed by `List.Forall₂`, which forces equal lengths and aligned
positions); each record carries the original column name and the best
score attempted against the alias universe, and whenever that best score
is below 85 the record maps the column to its own original name
(pass-through, not an error). -/
theorem reconcile_columns_one_record_each (cols : List Str) :
    ∃ l, reconcile_columns cols = some l ∧ l.length = cols.length ∧
      List.Forall₂ (fun col r => r.original_column = col ∧
        ∃ m s, best_match_score col (keysD expectedAliasMap) token_ratio =
            some (m, s) ∧
          r.score = s ∧ (s < 85 → r.mapped_to = col)) cols l := by
  obtain ⟨l, hl, hfa⟩ :=
    reconcileMeta_spec token_ratio expectedAliasMap expected_keys_ne_nil cols
  refine ⟨l, hl, hfa.length_eq.symm, hfa.imp ?_⟩
  rintro col r ⟨m, s, hbm, horig, hscore, hcase⟩
  refine ⟨horig, m, s, hbm, hscore, fun hlt => ?_⟩
  rcases hcase with ⟨h85, _⟩ | ⟨_, hmap⟩
  · exact absurd h85 (not_le.mpr hlt)
  · exact hmap

/-!
Dataset model: a pandas DataFrame as an ordered list of named, typed
columns of scalar values.
-/

/-- A scalar cell value: null (NaN/None), a string, or another scalar
(modelled by an integer — the claims only distinguish null / string /
non-string). -/
inductive Val where
  | vNull : Val
  | vStr : Str → Val
  | vInt : Int → Val
deriving DecidableEq

/-- A DataFrame column: name, dtype and cell values. -/
inductive Dtype where
  | intDt : Dtype
  | int64Dt : Dtype
  | floatDt : Dtype
  | objectDt : Dtype
  | otherDt : Dtype
deriving DecidableEq

structure PdCol where
  name : Str
  dtype : Dtype
  vals : List Val
deriving DecidableEq

structure DataFrame where
  cols : List PdCol
deriving DecidableEq

/-- Number of rows (length of the row axis). -/
def nRows (df : DataFrame) : Nat :=
  match df.cols with
  | [] => 0
  | c :: _ => c.vals.length

/-- pandas `df.empty`: true when any axis has length zero. -/
def dfEmpty (df : DataFrame) : Bool :=
  df.cols.isEmpty || decide (nRows df = 0)

/-- The two `ValueError`s of the basic validation at the end of
`load_csv_file` (lines 134-139). -/
inductive LoadError where
  | emptyCsv : LoadError
  | tooFewColumns : LoadError
deriving DecidableEq

/-- Embedding of the basic validation of `load_csv_file` (lines 134-139):
`if df.empty: raise ValueError("The CSV file is empty")` then
`if len(df.columns) < 2: raise ValueError("... at least two columns")`. -/
def validate_loaded (df : DataFrame) : Except LoadError DataFrame :=
  if dfEmpty df then Except.error LoadError.emptyCsv
  else if df.cols.length < 2 then Except.error LoadError.tooFewColumns
  else Except.ok df

/-- C10: `load_csv_file` rejects more than empty input — any loaded table
with at least one row but only a single column is refused with a
`ValueError` at the loading boundary. -/
theorem validate_loaded_rejects_single_column (df : DataFrame)
    (hrows : 0 < nRows df) (hcols : df.cols.length = 1) :
    validate_loaded df = Except.error LoadError.tooFewColumns := by
  have hne : ¬df.cols.isEmpty = true := by
    cases hc : df.cols with
    | nil => rw [hc] at hcols; simp at hcols
    | cons c t => simp [hc]
  have hempty : dfEmpty df = false := by
    simp only [dfEmpty, Bool.or_eq_false_iff, decide_eq_false_iff_not]
    exact ⟨by simpa using hne, by omega⟩
  simp [validate_loaded, hempty, hcols]

/-- C10 (witness): a concrete one-column, one-row table is refused. -/
theorem validate_loaded_rejects_single_column_witness :
    0 < nRows ⟨[⟨str ("price"), Dtype.intDt, [Val.vInt 1]⟩]⟩ ∧
    validate_loaded ⟨[⟨str ("price"), Dtype.intDt, [Val.vInt 1]⟩]⟩ =
      Except.error LoadError.tooFewColumns :=
  ⟨by decide,
   validate_loaded_rejects_single_column _ (by decide) (by decide)⟩

/-!
Type-promotion fallback of `load_csv_file` (lines 118-127): integer
columns containing nulls are promoted to nullable `Int64`, falling back to
`float64` only when the `Int64` conversion itself raises.  The pandas
`astype` conversions are third-party library calls, modelled as
parameters: `astypeInt64` may fail (`none` models a raised exception,
which the `except` clause catches), `astypeFloat64` is the fallback
conversion.  The `elif` branch for all-numeric object columns (lines
128-132) only logs and changes nothing. -/

/-- pandas `pd.api.types.is_integer_dtype` (true for both plain and
nullable integer dtypes). -/
def isIntegerDtype : Dtype → Bool
  | Dtype.intDt => true
  | Dtype.int64Dt => true
  | _ => false

/-- pandas `df[col].isnull().any()`. -/
def hasNullVal (c : PdCol) : Bool := c.vals.contains Val.vNull

/-- Embedding of the per-column promotion step (lines 119-127). -/
def promote_int_nulls (astypeInt64 : PdCol → Option PdCol)
    (astypeFloat64 : PdCol → PdCol) (col : PdCol) : PdCol :=
  if isIntegerDtype col.dtype && hasNullVal col then
    match astypeInt64 col with
    | some c2 => c2
    | none => astypeFloat64 col
  else col

/-- The loop over all columns (line 119). -/
def promote_all (astypeInt64 : PdCol → Option PdCol)
    (astypeFloat64 : PdCol → PdCol) (df : DataFrame) : DataFrame :=
  ⟨df.cols.map (promote_int_nulls astypeInt64 astypeFloat64)⟩

/-- C5: for every integer-dtype column containing a null, the loader
promotes the column to the result of the nullable-integer (`Int64`)
conversion whenever that conversion succeeds, and converts to `float64`
only when the `Int64` conversion itself raises; the promotion step itself
is total (it never propagates the caught exception). -/
theorem promote_int_nulls_prefers_Int64
    (astypeInt64 : PdCol → Option PdCol) (astypeFloat64 : PdCol → PdCol)
    (col : PdCol) (hint : isIntegerDtype col.dtype = true)
    (hnull : hasNullVal col = true) :
    (∃ c2, astypeInt64 col = some c2 ∧
      promote_int_nulls astypeInt64 astypeFloat64 col = c2) ∨
    (astypeInt64 col = none ∧
      promote_int_nulls astypeInt64 astypeFloat64 col = astypeFloat64 col) := by
  unfold promote_int_nulls
  rw [hint, hnull]
  cases h64 : astypeInt64 col with
  | some c2 => exact Or.inl ⟨c2, rfl, by simp⟩
  | none => exact Or.inr ⟨rfl, by simp⟩

/-- An `Int64` conversion that always succeeds, retyping the column
(used as a concrete instance of the pandas `astype` parameter). -/
def toInt64Ok (c : PdCol) : Option PdCol := some ⟨c.name, Dtype.int64Dt, c.vals⟩

/-- A `float64` conversion retyping the column. -/
def toFloat64 (c : PdCol) : PdCol := ⟨c.name, Dtype.floatDt, c.vals⟩

/-- A concrete integer column containing a null. -/
def colC5 : PdCol := ⟨str ("profit"), Dtype.intDt, [Val.vInt 3, Val.vNull]⟩

/-- C5 (witness): a concrete integer column with a null, with an `Int64`
conversion that succeeds — the promotion picks the `Int64` result, not
the float fallback. -/
theorem promote_int_nulls_prefers_Int64_witness :
    isIntegerDtype colC5.dtype = true ∧ hasNullVal colC5 = true ∧
    ((∃ c2, toInt64Ok colC5 = some c2 ∧
        promote_int_nulls toInt64Ok toFloat64 colC5 = c2) ∨
     (toInt64Ok colC5 = none ∧
        promote_int_nulls toInt64Ok toFloat64 colC5 = toFloat64 colC5)) :=
  ⟨by decide, by decide,
   promote_int_nulls_prefers_Int64 toInt64Ok toFloat64 colC5
     (by decide) (by decide)⟩

/-!
Basic Cleaner (`data_cleaner.py`, `clean_data`, lines 15-42).  The claims
concern its frame effect: `clean_data` starts with `cleaned_df = df.copy()`
("Create a copy to avoid modifying the original"), applies header
normalization, whitespace trimming and missing-value filling to the copy,
and returns the copy.  The outcome of a call is modelled explicitly as the
pair of (the caller's argument object after the call, the returned
object). -/

/-- Python `str.strip()`: remove leading and trailing whitespace. -/
def stripStr (s : Str) : Str :=
  ((s.dropWhile isSpaceCp).reverse.dropWhile isSpaceCp).reverse

/-- pandas `series.str.strip()` on one cell: strings are stripped, null
and non-string cells become null (the `.str` accessor yields NaN for
non-strings). -/
def strAccessorStrip : Val → Val
  | Val.vStr s => Val.vStr (stripStr s)
  | _ => Val.vNull

/-- Line 31: normalize one column header to snake_case. -/
def renameCol (c : PdCol) : PdCol := ⟨to_snake_case c.name, c.dtype, c.vals⟩

/-- Lines 34-35: for object-dtype columns, strip whitespace from every
value. -/
def cleanCol (c : PdCol) : PdCol :=
  if c.dtype = Dtype.objectDt then ⟨c.name, c.dtype, c.vals.map strAccessorStrip⟩
  else c

/-- Line 38: `cleaned_df.fillna('')` on one cell. -/
def fillnaVal : Val → Val
  | Val.vNull => Val.vStr []
  | v => v

/-- `fillna('')` on one column. -/
def fillnaCol (c : PdCol) : PdCol := ⟨c.name, c.dtype, c.vals.map fillnaVal⟩

/-- The content of the DataFrame returned by `clean_data`: headers
snake_cased, object-column values stripped, missing values filled with
the empty string. -/
def cleanedContent (df : DataFrame) : DataFrame :=
  ⟨((df.cols.map renameCol).map cleanCol).map fillnaCol⟩

/-- The observable outcome of one `clean_data(df)` call: the object the
caller's `df` reference points to after the call, and the returned
object. -/
structure CleanOutcome where
  argAfter : DataFrame
  returned : DataFrame
deriving DecidableEq

/-- Embedding of `clean_data` (lines 15-42): the function copies `df`
(line 28), mutates only the copy, and returns the copy — so the caller's
argument is unchanged and the cleaned content is only in the returned
object. -/
def clean_data (df : DataFrame) : CleanOutcome := ⟨df, cleanedContent df⟩

/-- A concrete DataFrame whose header is not yet snake_cased. -/
def dfC7 : DataFrame := ⟨[⟨str ("Lead Source"), Dtype.objectDt, [Val.vNull]⟩]⟩

/-- C7 (counterexample): `clean_data` does NOT mutate its argument in
place: for a concrete DataFrame with header `"Lead Source"`, the caller's
object after the call still has the raw header (it is not the cleaned
DataFrame), refuting the claim that the argument object itself ends up
with normalized headers, trimmed values and filled missing values. -/
theorem clean_data_not_in_place_counterexample :
    (clean_data dfC7).argAfter ≠ (clean_data dfC7).returned := by decide

theorem cleanCol_name (c : PdCol) : (cleanCol c).name = c.name := by
  unfold cleanCol
  split <;> rfl

/-- C7 (amended): `clean_data` copies: after `clean_data(df)` returns, the
caller's `df` object is unchanged, and the cleaned data — with every
header normalized by `to_snake_case` — is only in the returned copy. -/
theorem clean_data_returns_copy (df : DataFrame) :
    (clean_data df).argAfter = df ∧
    (clean_data df).returned.cols.map PdCol.name =
      df.cols.map (fun c => to_snake_case c.name) := by
  refine ⟨rfl, ?_⟩
  show (((df.cols.map renameCol).map cleanCol).map fillnaCol).map PdCol.name =
    df.cols.map (fun c => to_snake_case c.name)
  simp only [List.map_map]
  refine List.map_congr_left fun c hc => ?_
  show (fillnaCol (cleanCol (renameCol c))).name = to_snake_case c.name
  rw [show (fillnaCol (cleanCol (renameCol c))).name =
    (cleanCol (renameCol c)).name from rfl, cleanCol_name]
  rfl

/-!
Value Normalizer (`data_cleaner.py`, `normalize_lead_sources`, lines
51-99): per-value fuzzy normalization of the lead-source column against
the `LEAD_SOURCES` registry of `schema_config.py`, with `scorer=token_ratio`
and threshold 85.
-/

/-- Embedding of `LEAD_SOURCES` (`schema_config.py` lines 8-15). -/
def LEAD_SOURCES : List CanonEntry :=
  [⟨str ("NeoIdentity"),
    [str ("Neo Ident."), str ("NeoIdent."), str ("Neo Ident"),
     str ("NeoIdentity"), str ("Neo Identified")]⟩,
   ⟨str ("AutoTrader"),
    [str ("Auto Trader"), str ("Autotrader"), str ("AutoTrader.com"),
     str ("AT")]⟩,
   ⟨str ("CarGurus"),
    [str ("Car Gurus"), str ("Cargurus.com"), str ("CarGurus")]⟩,
   ⟨str ("Facebook"),
    [str ("FB"), str ("Facebook Marketplace"), str ("Facebook")]⟩,
   ⟨str ("WalkIn"),
    [str ("Walk In"), str ("Walk-In"), str ("WalkIn")]⟩]

/-- The `alias_to_canonical` dict built at lines 68-72. -/
def leadAliasMap : List (Str × Str) := buildAliasMap LEAD_SOURCES

/-- One `normalization_meta` record (lines 81-85 and 89-93). -/
structure NormRecord where
  original_value : Str
  normalized_to : Str
  score : ℚ
deriving DecidableEq

/-- Whether a cell holds a Python `str`. -/
def isStrVal : Val → Bool
  | Val.vStr _ => true
  | _ => false

/-- Embedding of the inner `normalize_value` closure (lines 76-96),
parameterized by the `alias_to_canonical` dict it closes over: null and
non-string cells are returned unchanged WITHOUT appending any
normalization record; string cells are scored against all candidate keys
with `token_ratio`, mapped to the owning canonical name when the best
score is at least 85 and kept unchanged otherwise, and in both string
cases one record is appended.  `none` models the exceptions Python would
raise (unpacking `extractOne`'s `None`, or a `KeyError`). -/
def normalize_value (am : List (Str × Str)) (v : Val) :
    Option (Val × List NormRecord) :=
  match v with
  | Val.vNull => some (v, [])
  | Val.vInt _ => some (v, [])
  | Val.vStr s =>
    match best_match_score s (keysD am) token_ratio with
    | none => none
    | some (m, sc) =>
      if 85 ≤ sc then
        match dget am m with
        | some canon => some (Val.vStr canon, [⟨s, canon, sc⟩])
        | none => none
      else some (Val.vStr s, [⟨s, s, sc⟩])

/-- Embedding of `df[lead_source_col].apply(normalize_value)` together
with the `normalization_meta` list the closure appends to, in value
order. -/
def normalizeColumn (am : List (Str × Str)) :
    List Val → Option (List Val × List NormRecord)
  | [] => some ([], [])
  | v :: vs =>
    match normalize_value am v, normalizeColumn am vs with
    | some (v2, m1), some (l, m2) => some (v2 :: l, m1 ++ m2)
    | _, _ => none

set_option maxHeartbeats 1000000 in
theorem lead_keys_ne_nil : keysD leadAliasMap ≠ [] := by decide

theorem normalize_value_spec (am : List (Str × Str)) (h : keysD am ≠ [])
    (v : Val) :
    ∃ v2 recs, normalize_value am v = some (v2, recs) ∧
      (isStrVal v = false → v2 = v ∧ recs = []) ∧
      (isStrVal v = true → recs.length = 1) := by
  cases v with
  | vNull => exact ⟨Val.vNull, [], rfl, fun _ => ⟨rfl, rfl⟩, by simp [isStrVal]⟩
  | vInt n => exact ⟨Val.vInt n, [], rfl, fun _ => ⟨rfl, rfl⟩, by simp [isStrVal]⟩
  | vStr s =>
    have hbm := extractOne_isSome token_ratio s h
    rw [Option.isSome_iff_exists] at hbm
    obtain ⟨⟨m, sc⟩, hms⟩ := hbm
    by_cases hsc : 85 ≤ sc
    · obtain ⟨canon, hcanon⟩ := keys_mem_dget (extractOne_mem hms)
      refine ⟨Val.vStr canon, [⟨s, canon, sc⟩], ?_, by simp [isStrVal], by simp⟩
      simp only [normalize_value]
      rw [show best_match_score s (keysD am) token_ratio =
        some (m, sc) from hms]
      simp [hsc, hcanon]
    · refine ⟨Val.vStr s, [⟨s, s, sc⟩], ?_, by simp [isStrVal], by simp⟩
      simp only [normalize_value]
      rw [show best_match_score s (keysD am) token_ratio =
        some (m, sc) from hms]
      simp [hsc]

/-- C4 (counterexample): a column consisting of a single null value
produces NO `ValueNormalizationRecord` at all (the null is skipped before
any record is appended), refuting the claim that nulls and non-strings
are still recorded in provenance with one record per input value. -/
theorem normalize_null_not_recorded_counterexample :
    normalizeColumn leadAliasMap [Val.vNull] = some ([Val.vNull], []) := by
  rfl

theorem normalizeColumn_spec (am : List (Str × Str)) (h : keysD am ≠ [])
    (vals : List Val) :
    ∃ out meta, normalizeColumn am vals = some (out, meta) ∧
      List.Forall₂ (fun v v2 => isStrVal v = false → v2 = v) vals out ∧
      meta.length = (vals.filter isStrVal).length := by
  induction vals with
  | nil => exact ⟨[], [], rfl, List.Forall₂.nil, rfl⟩
  | cons v vs ih =>
    obtain ⟨out, meta, hcol, hfa, hlen⟩ := ih
    obtain ⟨v2, recs, hv, hpass, hstr⟩ := normalize_value_spec am h v
    refine ⟨v2 :: out, recs ++ meta, ?_, ?_, ?_⟩
    · simp only [normalizeColumn, hv, hcol]
    · exact List.Forall₂.cons (fun hns => (hpass hns).1) hfa
    · cases hsv : isStrVal v with
      | false =>
        have := (hpass hsv).2
        simp [this, hlen, List.filter_cons, hsv]
      | true =>
        have := hstr hsv
        simp only [List.filter_cons, hsv, if_true, List.length_cons,
          List.length_append, this, hlen]
        omega

/-- C4 (amended): value normalization of the lead-source column processes
each value independently; null and non-string values pass through
unchanged and produce NO provenance record, while each string value
produces exactly one `ValueNormalizationRecord`; the replacement column
has the same length and order as the input (expressed by `List.Forall₂`,
which aligns positions and forces equal lengths), and the number of
records equals the number of string values. -/
theorem normalize_lead_values_spec (vals : List Val) :
    ∃ out meta, normalizeColumn leadAliasMap vals = some (out, meta) ∧
      List.Forall₂ (fun v v2 => isStrVal v = false → v2 = v) vals out ∧
      meta.length = (vals.filter isStrVal).length :=
  normalizeColumn_spec leadAliasMap lead_keys_ne_nil vals

/-!
The public interface of `normalize_lead_sources` (lines 51-99): find the
lead-source column; if none is found, return the DataFrame ALONE (line
65); otherwise normalize the column in place and return the PAIR of the
DataFrame and the `normalization_meta` records (line 99).
-/

/-- The comparison key of the column search (line 60):
`col.lower().replace(" ", "_")` (the ASCII fragment of `str.lower()`,
which covers the `possible_names` and is the relevant fragment as in
`lowerCp`; `replace(" ", "_")` is a single-codepoint replacement). -/
def canonKey (s : Str) : Str :=
  (lowerStr s).map (fun c => if c = 32 then 95 else c)

/-- `possible_names` (line 58). -/
def possible_names : List Str :=
  [str ("LeadSource"), str ("lead_source"), str ("lead source"),
   str ("Lead Source")]

/-- The column search of lines 57-62: the first column whose key equals
the key of one of the `possible_names`. -/
def findLeadSourceCol (cols : List Str) : Option Str :=
  cols.find? (fun c => (possible_names.map canonKey).contains (canonKey c))

/-- The two result shapes `normalize_lead_sources` can return: the
DataFrame alone (no lead-source column recognized) or a (DataFrame,
records) pair. -/
inductive NLSResult where
  | dfOnly : DataFrame → NLSResult
  | withMeta : DataFrame → List NormRecord → NLSResult
deriving DecidableEq

/-- Embedding of `normalize_lead_sources` (lines 51-99).  `none` models
the exceptions Python could raise inside the normalization path. -/
def normalize_lead_sources (df : DataFrame) : Option NLSResult :=
  match findLeadSourceCol (df.cols.map PdCol.name) with
  | none => some (NLSResult.dfOnly df)
  | some cname =>
    match df.cols.find? (fun c => decide (c.name = cname)) with
    | none => none
    | some col =>
      match normalizeColumn leadAliasMap col.vals with
      | none => none
      | some (newVals, meta) =>
        some (NLSResult.withMeta
          ⟨df.cols.map (fun c =>
            if c.name = cname then ⟨c.name, c.dtype, newVals⟩ else c)⟩ meta)

/-- C9: `normalize_lead_sources` has an inconsistent result shape at its
public interface: when no lead-source column is recognized among the
DataFrame's column names it returns the DataFrame alone (and no
normalization records exist), whereas whenever a lead-source column is
recognized it returns a (DataFrame, records) pair. -/
theorem normalize_lead_sources_shape :
    (∀ df : DataFrame, findLeadSourceCol (df.cols.map PdCol.name) = none →
      normalize_lead_sources df = some (NLSResult.dfOnly df)) ∧
    (∀ (df : DataFrame) (cname : Str),
      findLeadSourceCol (df.cols.map PdCol.name) = some cname →
      ∃ df2 meta, normalize_lead_sources df =
        some (NLSResult.withMeta df2 meta)) := by
  constructor
  · intro df h
    simp [normalize_lead_sources, h]
  · intro df cname h
    have hmem : cname ∈ df.cols.map PdCol.name := List.mem_of_find?_eq_some h
    rw [List.mem_map] at hmem
    obtain ⟨col, hcol, hname⟩ := hmem
    have hfind : (df.cols.find? (fun c => decide (c.name = cname))).isSome := by
      rw [List.find?_isSome]
      exact ⟨col, hcol, by simp [hname]⟩
    rw [Option.isSome_iff_exists] at hfind
    obtain ⟨col2, hcol2⟩ := hfind
    obtain ⟨out, meta, hnorm, -, -⟩ := normalize_lead_values_spec col2.vals
    refine ⟨⟨df.cols.map (fun c =>
      if c.name = cname then ⟨c.name, c.dtype, out⟩ else c)⟩, meta, ?_⟩
    simp only [normalize_lead_sources, h, hcol2, hnorm]

/-- C9 (witness): a DataFrame with no recognizable lead-source column
gets the bare-DataFrame shape; one with a `lead_source` column gets the
pair shape. -/
theorem normalize_lead_sources_shape_witness :
    normalize_lead_sources ⟨[⟨str ("price"), Dtype.intDt, []⟩]⟩ =
      some (NLSResult.dfOnly ⟨[⟨str ("price"), Dtype.intDt, []⟩]⟩) ∧
    ∃ df2 meta,
      normalize_lead_sources ⟨[⟨str ("lead_source"), Dtype.objectDt, []⟩]⟩ =
        some (NLSResult.withMeta df2 meta) :=
  ⟨normalize_lead_sources_shape.1 ⟨[⟨str ("price"), Dtype.intDt, []⟩]⟩
    (by decide),
   normalize_lead_sources_shape.2 ⟨[⟨str ("lead_source"), Dtype.objectDt, []⟩]⟩
    (str ("lead_source")) (by decide)⟩

/-- C1 (amended, witness): the characterization instantiated at the
concrete input column list `["price"]`. -/
theorem reconcile_columns_token_ratio_85_witness :
    ∃ l, reconcile_columns [str ("price")] = some l ∧
      List.Forall₂ (fun col r =>
        ∃ m s, best_match_score col (keysD expectedAliasMap) token_ratio =
            some (m, s) ∧
          r.original_column = col ∧ r.score = s ∧
          ((85 ≤ s ∧ dget expectedAliasMap m = some r.mapped_to) ∨
           (s < 85 ∧ r.mapped_to = col))) [str ("price")] l :=
  reconcile_columns_token_ratio_85 [str ("price")]

/-- C3 (witness): the record-per-column invariant instantiated at the
concrete input column list `["price"]`. -/
theorem reconcile_columns_one_record_each_witness :
    ∃ l, reconcile_columns [str ("price")] = some l ∧
      l.length = [str ("price")].length ∧
      List.Forall₂ (fun col r => r.original_column = col ∧
        ∃ m s, best_match_score col (keysD expectedAliasMap) token_ratio =
            some (m, s) ∧
          r.score = s ∧ (s < 85 → r.mapped_to = col)) [str ("price")] l :=
  reconcile_columns_one_record_each [str ("price")]

/-- C4 (amended, witness): the per-value contract instantiated at the
concrete column `[null, "Walk In"]`. -/
theorem normalize_lead_values_spec_witness :
    ∃ out meta,
      normalizeColumn leadAliasMap [Val.vNull, Val.vStr (str ("Walk In"))] =
        some (out, meta) ∧
      List.Forall₂ (fun v v2 => isStrVal v = false → v2 = v)
        [Val.vNull, Val.vStr (str ("Walk In"))] out ∧
      meta.length =
        ([Val.vNull, Val.vStr (str ("Walk In"))].filter isStrVal).length :=
  normalize_lead_values_spec [Val.vNull, Val.vStr (str ("Walk In"))]
